import Mathlib

/-!
Verification of the UACA2DP firmware core (src/firmware/src/uaca2dp.cpp).

The audio relay is embedded shallowly:
* PCM byte buffers are `List Nat` (each element one byte, value < 256;
  16-bit samples are little-endian byte pairs, as on the ESP32 target).
* The FreeRTOS ring buffer (`xRingbufferSend` / `xRingbufferReceiveUpTo`)
  is not part of this repository; it is modelled from the spec's
  Bounded Audio Channel contract (§4.1): a byte FIFO of capacity
  `RINGBUF_SIZE`, enqueue failing exactly when the write does not fit,
  dequeue-up-to removing the oldest `min requested available` bytes with
  zero-timeout semantics.
* The four callbacks (`uac_output_cb`, `uac_device_set_mute_cb`,
  `uac_device_set_volume_cb`, `avrc_passthru_cb`) and the Bluetooth data
  callback `get_bt_audio_data` are translated from the C source; the
  mutable globals (`audio_ringbuf`, `uac_mute_flag`, `uac_volume_level`)
  become explicit arguments and results.
-/

/-- `#define RINGBUF_SIZE (8 * 1024)` — capacity of the audio ring buffer. -/
def RINGBUF_SIZE : Nat := 8 * 1024

/-- Modelled from the spec: `enqueue(bytes) -> bool` of the Bounded Audio
Channel (the FreeRTOS `xRingbufferSend`, whose source is not in this
repository).  The write is inserted as one unit at the back; it fails
(returns `none`, the C `pdFALSE`) exactly when there is insufficient free
capacity; it never blocks and never partially inserts. -/
def xRingbufferSend (queue buf : List Nat) : Option (List Nat) :=
  if queue.length + buf.length ≤ RINGBUF_SIZE then some (queue ++ buf) else none

/-- Modelled from the spec: `dequeue_up_to(max_bytes)` of the Bounded Audio
Channel (the FreeRTOS `xRingbufferReceiveUpTo` with zero timeout, whose
source is not in this repository).  Removes and returns up to `maxBytes`
of the oldest queued data; an empty result models the C `NULL` return. -/
def xRingbufferReceiveUpTo (queue : List Nat) (maxBytes : Nat) :
    List Nat × List Nat :=
  (queue.take maxBytes, queue.drop maxBytes)

/-- `ESP_OK`, the success return code of ESP-IDF. -/
def ESP_OK : Nat := 0

/-- Result of one `uac_output_cb` delivery: the new queue contents, the
bytes the overflow policy discarded from the queue (empty when no overflow
handling ran), and the returned error code. -/
structure DeliverResult where
  queue : List Nat
  dropped : List Nat
  err : Nat
  deriving Repr, DecidableEq

/-- `uac_output_cb` (uaca2dp.cpp lines 24–41): the USB speaker-output
callback.  Copies the received samples into the ring buffer; on a failed
send it dequeues up to `len` bytes of the oldest data, discards them,
retries the send exactly once ignoring the result, and always returns
`ESP_OK`. -/
def uac_output_cb (queue buf : List Nat) : DeliverResult :=
  if 0 < buf.length then
    match xRingbufferSend queue buf with
    | some q => ⟨q, [], ESP_OK⟩
    | none =>
      let recv := xRingbufferReceiveUpTo queue buf.length
      match xRingbufferSend recv.2 buf with
      | some q2 => ⟨q2, recv.1, ESP_OK⟩
      | none => ⟨recv.2, recv.1, ESP_OK⟩
  else ⟨queue, [], ESP_OK⟩

/-- `uac_device_set_mute_cb` (uaca2dp.cpp lines 43–49):
`uac_mute_flag = (mute != 0)`. -/
def uac_device_set_mute_cb (mute : Nat) : Bool :=
  mute ≠ 0

/-- `uac_device_set_volume_cb` (uaca2dp.cpp lines 52–72).  Stores the raw
host value into `uac_volume_level` unmodified, then computes the 0–127
`bt_volume` forwarded to `a2dp_source.set_volume`: values ≤ 100 are taken
as percent and rescaled by 127/100, values 101–127 are forwarded as-is,
larger values are clamped to 255 and rescaled by 127/255.  The `(uint8_t)`
casts are the `% 256` reductions.  Returns
`(uac_volume_level, bt_volume)`. -/
def uac_device_set_volume_cb (volume : Nat) : Nat × Nat :=
  let uac_volume_level := volume
  let bt_volume :=
    if volume ≤ 100 then (volume * 127 / 100) % 256
    else if volume ≤ 127 then volume % 256
    else ((min volume 255) * 127 / 255) % 256
  (uac_volume_level, bt_volume)

/-- The fetch loop of `get_bt_audio_data` (uaca2dp.cpp lines 84–103):
`while (bytes_read < len)` it dequeues up to the remaining byte count; a
`NULL` chunk (empty queue) fills the remainder with silence and stops.
`acc` is the data written to the output buffer so far.  Returns the filled
output block and the remaining queue. -/
def read_loop (queue acc : List Nat) (len : Nat) : List Nat × List Nat :=
  if hlt : acc.length < len then
    if hch : queue.take (len - acc.length) = [] then
      (acc ++ List.replicate (len - acc.length) 0, queue)
    else
      read_loop (queue.drop (len - acc.length))
        (acc ++ queue.take (len - acc.length)) len
  else
    (acc, queue)
termination_by len - acc.length
decreasing_by
  have hpos : 0 < (queue.take (len - acc.length)).length :=
    List.length_pos.mpr hch
  simp only [List.length_append]
  omega

/-- One iteration of the volume-scaling loop of `get_bt_audio_data`
(uaca2dp.cpp lines 108–118) on a single 16-bit sample slot.  `u` is the
value read through the `uint16_t *samples` view (zero-extended into the
`int32_t sample`), `vol` is `uac_volume_level`; the result is the
`(int16_t)` bit pattern stored back into the slot. -/
def scale_sample (u vol : Nat) : Nat :=
  let sample : Int := ((u : Int) * (vol : Int)) / 100
  let sample := if 32767 < sample then 32767 else sample
  let sample := if sample < -32768 then -32768 else sample
  (sample % 65536).toNat

/-- The volume-scaling loop over the output buffer: the buffer is viewed
as little-endian `uint16_t` slots (`sample_count = bytes_read / 2`, a
trailing odd byte is untouched) and each slot is rewritten by
`scale_sample`. -/
def scale_bytes (vol : Nat) : List Nat → List Nat
  | lo :: hi :: rest =>
    let r := scale_sample (lo + 256 * hi) vol
    r % 256 :: r / 256 :: scale_bytes vol rest
  | l => l

/-- `get_bt_audio_data` (uaca2dp.cpp lines 75–121): the Bluetooth A2DP
data callback.  Arguments are the queue contents and the globals
`uac_mute_flag` and `uac_volume_level`; `len` is the requested byte count.
Returns the bytes written into `data` and the remaining queue.  A
non-positive `len` writes nothing; mute or zero volume writes `len` zero
bytes; otherwise the fetch loop fills the block and, when
`0 < uac_volume_level < 100` and bytes were read, the scaling loop
rewrites it. -/
def get_bt_audio_data (queue : List Nat) (uac_mute_flag : Bool)
    (uac_volume_level : Nat) (len : Nat) : List Nat × List Nat :=
  if len = 0 then ([], queue)
  else if uac_mute_flag ∨ uac_volume_level = 0 then
    (List.replicate len 0, queue)
  else
    let r := read_loop queue [] len
    if uac_volume_level < 100 ∧ 0 < uac_volume_level ∧ 0 < len then
      (scale_bytes uac_volume_level r.1, r.2)
    else r

/-- `avrc_passthru_cb` (uaca2dp.cpp lines 125–154): the AVRCP passthrough
callback.  Press events (`isReleased = false`) are ignored; releasing PLAY
(0x44) or PAUSE (0x46) toggles `uac_mute_flag`; all other keys (FORWARD
0x4B, BACKWARD 0x4C, REWIND 0x48, FAST FORWARD 0x49, and unknown codes)
only log.  Returns the new mute flag. -/
def avrc_passthru_cb (key : Nat) (isReleased : Bool)
    (uac_mute_flag : Bool) : Bool :=
  if !isReleased then uac_mute_flag
  else if key = 0x44 ∨ key = 0x46 then !uac_mute_flag
  else uac_mute_flag

/-- Signed interpretation of a 16-bit sample slot (what the spec's
"16-bit signed little-endian sample" denotes for the stored bit
pattern `u`). -/
def toInt16 (u : Nat) : Int :=
  if u < 32768 then (u : Int) else (u : Int) - 65536

/-- The spec's volume transform for one signed sample:
`clamp(s * volume_percent / 100, -32768, 32767)` with truncating integer
division. -/
def spec_scale_sample (s : Int) (vol : Nat) : Int :=
  max (-32768) (min 32767 (Int.tdiv (s * (vol : Int)) 100))

/-! ### Characterizations of the data-path functions -/

/-- The fetch loop fills the block with the oldest queued bytes followed by
silence for any shortfall, and leaves the rest of the queue behind. -/
theorem read_loop_spec (queue acc : List Nat) (len : Nat) :
    read_loop queue acc len =
      (acc ++ queue.take (len - acc.length) ++
         List.replicate (len - acc.length - queue.length) 0,
       queue.drop (len - acc.length)) := by
  induction queue, acc, len using read_loop.induct with
  | case1 queue acc len hlt hch =>
    have hq : queue = [] := by
      rcases List.take_eq_nil_iff.mp hch with h0 | hq
      · omega
      · exact hq
    subst hq
    rw [read_loop, dif_pos hlt, dif_pos hch]
    simp
  | case2 queue acc len hlt hch ih =>
    rw [read_loop, dif_pos hlt, dif_neg hch, ih]
    rcases Nat.lt_or_ge queue.length (len - acc.length) with hq | hq
    · have ht : queue.take (len - acc.length) = queue :=
        List.take_of_length_le (Nat.le_of_lt hq)
      have hd : queue.drop (len - acc.length) = [] :=
        List.drop_eq_nil_of_le (Nat.le_of_lt hq)
      simp only [ht, hd, List.length_append, List.take_nil, List.drop_nil,
        List.append_nil, List.append_assoc]
      simp [Nat.sub_sub]
    · have hm : (queue.take (len - acc.length)).length = len - acc.length := by
        rw [List.length_take]
        omega
      simp only [List.length_append, hm]
      have hz : len - (acc.length + (len - acc.length)) = 0 := by omega
      have hz2 : len - acc.length - queue.length = 0 := by omega
      simp [hz, hz2, List.append_assoc]
  | case3 queue acc len hlt =>
    rw [read_loop, dif_neg hlt]
    have hz : len - acc.length = 0 := by omega
    simp [hz]

/-- The scaling loop rewrites samples in place: it never changes the
length of the block. -/
theorem scale_bytes_length (vol : Nat) :
    ∀ l : List Nat, (scale_bytes vol l).length = l.length
  | [] => rfl
  | [_] => rfl
  | lo :: hi :: rest => by
    simp [scale_bytes, scale_bytes_length vol rest]

/-- When the scaled value needs no clamping (as for every sample read
from a block of genuine bytes), `scale_sample` is plain
`u * vol / 100`. -/
theorem scale_sample_eval (u vol : Nat) (h : u * vol / 100 ≤ 32767) :
    scale_sample u vol = u * vol / 100 := by
  simp only [scale_sample]
  have h1 : (u : Int) * (vol : Int) / 100 = ((u * vol / 100 : Nat) : Int) := by
    rw [Int.ofNat_ediv]
    push_cast
    ring
  rw [h1]
  split_ifs <;> omega

/-- A zero sample scales to zero at every volume. -/
theorem scale_sample_zero (vol : Nat) : scale_sample 0 vol = 0 := by
  rw [scale_sample_eval]
  · simp
  · simp

/-- The scaling loop maps a silence block to itself. -/
theorem scale_bytes_replicate_zero (vol : Nat) :
    ∀ m : Nat, scale_bytes vol (List.replicate m 0) = List.replicate m 0
  | 0 => rfl
  | 1 => rfl
  | (m + 2) => by
    simp only [List.replicate_succ, scale_bytes]
    rw [scale_bytes_replicate_zero vol m]
    simp [scale_sample_zero]

/-- A sample whose high byte is zero (as in a slot straddling real data
and silence padding) scales to a value below 256, so its high output
byte is again zero. -/
theorem scale_sample_byte_lt (lo vol : Nat) (hlo : lo < 256)
    (hv : vol < 100) : scale_sample lo vol < 256 := by
  have hb : lo * vol / 100 ≤ 252 := by
    calc lo * vol / 100 ≤ 255 * 99 / 100 :=
          Nat.div_le_div_right (Nat.mul_le_mul (by omega) (by omega))
      _ = 252 := by norm_num
  rw [scale_sample_eval lo vol (by omega)]
  omega

/-- The scaling loop keeps the silence padding at the tail of the output
block zero: past the real data of a byte block, every output byte is
still 0 (including the high byte of a slot straddling data and
padding). -/
theorem scale_bytes_zero_tail (vol : Nat) (hv : vol < 100) :
    ∀ l : List Nat, (∀ b ∈ l, b < 256) → ∀ m : Nat,
      (scale_bytes vol (l ++ List.replicate m 0)).drop l.length =
        List.replicate m 0
  | [], _, m => by
    simp [scale_bytes_replicate_zero vol m]
  | [lo], hb, 0 => by
    simp [scale_bytes]
  | [lo], hb, (m + 1) => by
    have hlo : lo < 256 := hb lo (by simp)
    have hr : scale_sample (lo + 256 * 0) vol < 256 := by
      simpa using scale_sample_byte_lt lo vol hlo hv
    simp only [List.cons_append, List.nil_append, List.replicate_succ,
      scale_bytes]
    rw [scale_bytes_replicate_zero vol m]
    simp only [List.length_cons, List.length_nil, List.drop_succ_cons,
      List.drop_zero]
    rw [Nat.div_eq_of_lt (by simpa using hr)]
  | lo :: hi :: l', hb, m => by
    simp only [List.cons_append, scale_bytes, List.length_cons,
      List.drop_succ_cons]
    exact scale_bytes_zero_tail vol hv l'
      (fun b hb2 => hb b (by simp [hb2])) m

/-- Closed form of `get_bt_audio_data`: the output block is the oldest
`len` queued bytes padded with silence, scaled only when
`0 < uac_volume_level < 100`, and those bytes leave the queue (the queue
is untouched when the request is empty, muted, or at zero volume). -/
theorem get_bt_audio_data_eq (queue : List Nat) (uac_mute_flag : Bool)
    (uac_volume_level : Nat) (len : Nat) :
    get_bt_audio_data queue uac_mute_flag uac_volume_level len =
      if len = 0 then ([], queue)
      else if uac_mute_flag ∨ uac_volume_level = 0 then
        (List.replicate len 0, queue)
      else if uac_volume_level < 100 ∧ 0 < uac_volume_level ∧ 0 < len then
        (scale_bytes uac_volume_level
          (queue.take len ++ List.replicate (len - queue.length) 0),
         queue.drop len)
      else
        (queue.take len ++ List.replicate (len - queue.length) 0,
         queue.drop len) := by
  unfold get_bt_audio_data
  rw [read_loop_spec]
  simp

/-! ### Traces of the relay

The two transport contexts interact with the three globals through the
five entry points.  `stepOp` instruments each entry point with ghost
history fields (`accepted`, `removed`, `pulled`, `dropped`) used to state
the FIFO and capacity claims; the `queue`/`dropped` evolution of `stepOp`
agrees with `uac_output_cb` and `get_bt_audio_data` (see
`stepOp_deliver_agrees` and `stepOp_pull_agrees` below). -/

/-- One external event hitting the relay. -/
inductive Op where
  | deliver : List Nat → Op
  | pull : Nat → Op
  | setMute : Nat → Op
  | setVolume : Nat → Op
  | remoteKey : Nat → Bool → Op
  deriving Repr, DecidableEq

/-- The relay's global state plus ghost history: `accepted` is the
concatenation, in order, of every write that was successfully enqueued;
`removed` is the concatenation, in chronological order, of every byte
taken off the front of the queue (whether handed to the consumer or
discarded by the overflow policy); `pulled` is the consumer-handed part
of `removed`; `dropped` is the overflow-discarded part. -/
structure SysState where
  queue : List Nat
  uac_mute_flag : Bool
  uac_volume_level : Nat
  accepted : List Nat
  removed : List Nat
  pulled : List Nat
  dropped : List Nat
  deriving Repr, DecidableEq

/-- Initial state, as set up by `app_main`: empty ring buffer,
`uac_mute_flag = false`, `uac_volume_level = 100`. -/
def SysState.init : SysState :=
  ⟨[], false, 100, [], [], [], []⟩

/-- One step of the relay.  The data-path cases mirror `uac_output_cb`
and `get_bt_audio_data` (only their queue effect matters here); the
control cases apply the corresponding callbacks. -/
def stepOp (s : SysState) : Op → SysState
  | Op.deliver buf =>
    if 0 < buf.length then
      match xRingbufferSend s.queue buf with
      | some q => { s with queue := q, accepted := s.accepted ++ buf }
      | none =>
        let recv := xRingbufferReceiveUpTo s.queue buf.length
        match xRingbufferSend recv.2 buf with
        | some q2 =>
          { s with queue := q2, accepted := s.accepted ++ buf,
                   removed := s.removed ++ recv.1,
                   dropped := s.dropped ++ recv.1 }
        | none =>
          { s with queue := recv.2,
                   removed := s.removed ++ recv.1,
                   dropped := s.dropped ++ recv.1 }
    else s
  | Op.pull n =>
    if n = 0 then s
    else if s.uac_mute_flag ∨ s.uac_volume_level = 0 then s
    else
      { s with queue := s.queue.drop n,
               removed := s.removed ++ s.queue.take n,
               pulled := s.pulled ++ s.queue.take n }
  | Op.setMute m => { s with uac_mute_flag := uac_device_set_mute_cb m }
  | Op.setVolume v =>
    { s with uac_volume_level := (uac_device_set_volume_cb v).1 }
  | Op.remoteKey key released =>
    { s with uac_mute_flag :=
        avrc_passthru_cb key released s.uac_mute_flag }

/-- Run a sequence of events from a state. -/
def runOps (s : SysState) (ops : List Op) : SysState :=
  ops.foldl stepOp s

/-- The queue and overflow-discard evolution of `stepOp` on a delivery is
exactly that of the translated `uac_output_cb`. -/
theorem stepOp_deliver_agrees (s : SysState) (buf : List Nat) :
    (stepOp s (Op.deliver buf)).queue = (uac_output_cb s.queue buf).queue ∧
    (stepOp s (Op.deliver buf)).dropped =
      s.dropped ++ (uac_output_cb s.queue buf).dropped := by
  by_cases hb : 0 < buf.length
  · simp only [stepOp, uac_output_cb, if_pos hb]
    cases hx : xRingbufferSend s.queue buf with
    | some q => simp
    | none =>
      cases hx2 :
          xRingbufferSend (xRingbufferReceiveUpTo s.queue buf.length).2 buf with
      | some q2 => simp
      | none => simp
  · simp [stepOp, uac_output_cb, if_neg hb]

/-- The queue evolution of `stepOp` on a pull is exactly that of the
translated `get_bt_audio_data`. -/
theorem stepOp_pull_agrees (s : SysState) (n : Nat) :
    (stepOp s (Op.pull n)).queue =
      (get_bt_audio_data s.queue s.uac_mute_flag s.uac_volume_level n).2 := by
  rw [get_bt_audio_data_eq]
  by_cases hn : n = 0
  · simp [stepOp, hn]
  · by_cases hm : s.uac_mute_flag ∨ s.uac_volume_level = 0
    · simp [stepOp, hn, hm]
    · by_cases hv : s.uac_volume_level < 100 ∧ 0 < s.uac_volume_level ∧ 0 < n
      · simp [stepOp, hn, hm, hv]
      · simp [stepOp, hn, hm, hv]

/-- Bytes of the deliveries in a trace, in order. -/
def enqueuedBytes : List Op → List Nat
  | [] => []
  | Op.deliver buf :: rest => buf ++ enqueuedBytes rest
  | _ :: rest => enqueuedBytes rest

/-- Whether an event is a data-path event (a delivery or a pull). -/
def isDataOp : Op → Bool
  | Op.deliver _ => true
  | Op.pull _ => true
  | _ => false

/-- The trace never overfills the channel: every delivery fits into the
free capacity at the moment it arrives. -/
def NoOverflow : SysState → List Op → Bool
  | _, [] => true
  | s, op :: rest =>
    (match op with
     | Op.deliver buf => s.queue.length + buf.length ≤ RINGBUF_SIZE
     | _ => true) &&
    NoOverflow (stepOp s op) rest

/-- A successful send means the write fit and was appended at the back. -/
theorem xRingbufferSend_eq_some {queue buf q : List Nat}
    (h : xRingbufferSend queue buf = some q) :
    queue.length + buf.length ≤ RINGBUF_SIZE ∧ q = queue ++ buf := by
  unfold xRingbufferSend at h
  split at h
  · exact ⟨by assumption, by simp_all⟩
  · cases h

/-- Every step preserves the channel invariant: the queue never exceeds
`RINGBUF_SIZE` bytes, and the bytes removed from the front so far,
followed by the current queue, are exactly the successfully enqueued
bytes in order. -/
theorem stepOp_inv (s : SysState) (op : Op)
    (h1 : s.queue.length ≤ RINGBUF_SIZE)
    (h2 : s.removed ++ s.queue = s.accepted) :
    (stepOp s op).queue.length ≤ RINGBUF_SIZE ∧
    (stepOp s op).removed ++ (stepOp s op).queue = (stepOp s op).accepted := by
  cases op with
  | deliver buf =>
    by_cases hb : 0 < buf.length
    · simp only [stepOp, if_pos hb]
      cases hx : xRingbufferSend s.queue buf with
      | some q =>
        obtain ⟨hle, hq⟩ := xRingbufferSend_eq_some hx
        subst hq
        refine ⟨by simpa using hle, ?_⟩
        simp only [← h2, List.append_assoc]
      | none =>
        cases hx2 : xRingbufferSend
            (xRingbufferReceiveUpTo s.queue buf.length).2 buf with
        | some q2 =>
          obtain ⟨hle, hq⟩ := xRingbufferSend_eq_some hx2
          subst hq
          refine ⟨by simpa using hle, ?_⟩
          simp only [xRingbufferReceiveUpTo, ← h2, List.append_assoc]
          simp [← List.append_assoc, List.take_append_drop]
        | none =>
          refine ⟨?_, ?_⟩
          · simp only [xRingbufferReceiveUpTo, List.length_drop]
            omega
          · simp only [xRingbufferReceiveUpTo, ← h2, List.append_assoc]
            simp [List.take_append_drop]
    · simpa [stepOp, if_neg hb] using ⟨h1, h2⟩
  | pull n =>
    by_cases hn : n = 0
    · simpa [stepOp, hn] using ⟨h1, h2⟩
    · by_cases hm : s.uac_mute_flag ∨ s.uac_volume_level = 0
      · simpa [stepOp, hn, hm] using ⟨h1, h2⟩
      · simp only [stepOp, if_neg hn, if_neg hm]
        refine ⟨?_, ?_⟩
        · simp only [List.length_drop]
          omega
        · simp only [← h2, List.append_assoc]
          simp [List.take_append_drop]
  | setMute m => simpa [stepOp] using ⟨h1, h2⟩
  | setVolume v => simpa [stepOp] using ⟨h1, h2⟩
  | remoteKey key released => simpa [stepOp] using ⟨h1, h2⟩

/-- The channel invariant holds along any run. -/
theorem runOps_inv (ops : List Op) (s : SysState)
    (h1 : s.queue.length ≤ RINGBUF_SIZE)
    (h2 : s.removed ++ s.queue = s.accepted) :
    (runOps s ops).queue.length ≤ RINGBUF_SIZE ∧
    (runOps s ops).removed ++ (runOps s ops).queue = (runOps s ops).accepted := by
  induction ops generalizing s with
  | nil => exact ⟨h1, h2⟩
  | cons op rest ih =>
    have h := stepOp_inv s op h1 h2
    simpa only [runOps, List.foldl_cons] using ih (stepOp s op) h.1 h.2

/-- Along a data-only trace that never overfills the channel, starting
unmuted at unity volume: nothing is dropped, every delivery is accepted,
and the consumer-handed bytes coincide with the front-removed bytes. -/
theorem runOps_fifo (ops : List Op) (s : SysState)
    (hdata : ∀ op ∈ ops, isDataOp op = true)
    (hno : NoOverflow s ops = true)
    (hm : s.uac_mute_flag = false)
    (hv : s.uac_volume_level = 100) :
    ∃ newly : List Nat,
      (runOps s ops).pulled = s.pulled ++ newly ∧
      (runOps s ops).removed = s.removed ++ newly ∧
      (runOps s ops).dropped = s.dropped ∧
      (runOps s ops).accepted = s.accepted ++ enqueuedBytes ops := by
  induction ops generalizing s with
  | nil => exact ⟨[], by simp [runOps], by simp [runOps], by simp [runOps],
      by simp [runOps, enqueuedBytes]⟩
  | cons op rest ih =>
    simp only [NoOverflow, Bool.and_eq_true] at hno
    have hdop : isDataOp op = true := hdata op (List.mem_cons_self op rest)
    have hdrest : ∀ o ∈ rest, isDataOp o = true :=
      fun o ho => hdata o (List.mem_cons_of_mem op ho)
    simp only [runOps, List.foldl_cons]
    cases op with
    | deliver buf =>
      have hfit : s.queue.length + buf.length ≤ RINGBUF_SIZE := by
        simpa using hno.1
      by_cases hb : 0 < buf.length
      · have hsend : xRingbufferSend s.queue buf = some (s.queue ++ buf) :=
          if_pos hfit
        have hstep : stepOp s (Op.deliver buf) =
            { s with queue := s.queue ++ buf,
                     accepted := s.accepted ++ buf } := by
          simp [stepOp, if_pos hb, hsend]
        obtain ⟨newly, hp, hr, hd, ha⟩ :=
          ih (stepOp s (Op.deliver buf))
            (by simpa only [runOps] using hdrest)
            (by simpa only [] using hno.2)
            (by simp [hstep, hm]) (by simp [hstep, hv])
        refine ⟨newly, ?_, ?_, ?_, ?_⟩
        · simpa [runOps, hstep] using hp
        · simpa [runOps, hstep] using hr
        · simpa [runOps, hstep] using hd
        · simp only [runOps] at ha
          simp [hstep, enqueuedBytes, List.append_assoc] at ha ⊢
          exact ha
      · have hbuf : buf = [] := by
          simpa using List.eq_nil_of_length_eq_zero (by omega)
        have hstep : stepOp s (Op.deliver buf) = s := by
          simp [stepOp, hbuf]
        obtain ⟨newly, hp, hr, hd, ha⟩ :=
          ih (stepOp s (Op.deliver buf)) hdrest hno.2
            (by simp [hstep, hm]) (by simp [hstep, hv])
        exact ⟨newly, by simpa [runOps, hstep] using hp,
          by simpa [runOps, hstep] using hr,
          by simpa [runOps, hstep] using hd,
          by simpa [runOps, hstep, hbuf, enqueuedBytes] using ha⟩
    | pull n =>
      by_cases hn : n = 0
      · have hstep : stepOp s (Op.pull n) = s := by simp [stepOp, hn]
        obtain ⟨newly, hp, hr, hd, ha⟩ :=
          ih (stepOp s (Op.pull n)) hdrest hno.2
            (by simp [hstep, hm]) (by simp [hstep, hv])
        exact ⟨newly, by simpa [runOps, hstep] using hp,
          by simpa [runOps, hstep] using hr,
          by simpa [runOps, hstep] using hd,
          by simpa [runOps, hstep, enqueuedBytes] using ha⟩
      · have hmv : ¬(s.uac_mute_flag ∨ s.uac_volume_level = 0) := by
          simp [hm, hv]
        have hstep : stepOp s (Op.pull n) =
            { s with queue := s.queue.drop n,
                     removed := s.removed ++ s.queue.take n,
                     pulled := s.pulled ++ s.queue.take n } := by
          simp [stepOp, hn, hmv]
        obtain ⟨newly, hp, hr, hd, ha⟩ :=
          ih (stepOp s (Op.pull n)) hdrest hno.2
            (by simp [hstep, hm]) (by simp [hstep, hv])
        refine ⟨s.queue.take n ++ newly, ?_, ?_, ?_, ?_⟩
        · simpa [runOps, hstep, List.append_assoc] using hp
        · simpa [runOps, hstep, List.append_assoc] using hr
        · simpa [runOps, hstep] using hd
        · simpa [runOps, hstep, enqueuedBytes] using ha
    | setMute m => simp [isDataOp] at hdop
    | setVolume v => simp [isDataOp] at hdop
    | remoteKey key released => simp [isDataOp] at hdop

/-! ### Claims -/

/-- C1: the claim says every 16-bit signed sample `s` becomes
`clamp(s * volume_percent / 100, -32768, 32767)` (so negative samples
stay negative-or-zero), but the scaling loop reads samples through a
`uint16_t` view.  At volume 50, unmuted, pulling the queued bytes
`[0xFF, 0xFF]` — the signed sample −1 — the code produces `[0xFF, 0x7F]`,
the bit pattern of +32767, while the claimed transform on −1 yields 0.
The code's own unreachable `sample < -32768` clamp and its "scale down
the amplitude" comment show the signed transform was the intent. -/
theorem C1_code_eval :
    (get_bt_audio_data [255, 255] false 50 2).1 = [255, 127] ∧
    toInt16 (255 + 256 * 255) = -1 ∧
    toInt16 (255 + 256 * 127) = 32767 ∧
    spec_scale_sample (toInt16 (255 + 256 * 255)) 50 = 0 := by
  rw [get_bt_audio_data_eq]
  decide

/-- C2 counterexample: after `set_volume(110)` the stored volume level is
110 — the raw host value, not the claimed ≈87 — and it exceeds 100. -/
theorem C2_counterexample :
    (uac_device_set_volume_cb 110).1 = 110 ∧
    100 < (uac_device_set_volume_cb 110).1 := by
  decide

/-- C2 (amended): after every `set_volume(raw)` call the stored volume
level is the raw host value, unnormalized (it may exceed 100); the
range-detection heuristic instead normalizes the volume forwarded to the
Bluetooth sink onto a 0–127 scale — raw ≤ 100 becomes raw·127/100,
raw in 101–127 is forwarded as-is, raw > 127 is clamped to 255 and
becomes raw·127/255 — and the forwarded value never exceeds 127
(e.g. 50 ↦ 63, 110 ↦ 110, 200 ↦ 99). -/
theorem C2_volume_stored_raw (raw : Nat) :
    (uac_device_set_volume_cb raw).1 = raw ∧
    (uac_device_set_volume_cb raw).2 ≤ 127 ∧
    (uac_device_set_volume_cb 50).2 = 63 ∧
    (uac_device_set_volume_cb 110).2 = 110 ∧
    (uac_device_set_volume_cb 200).2 = 99 := by
  refine ⟨rfl, ?_, by decide, by decide, by decide⟩
  simp only [uac_device_set_volume_cb]
  by_cases h1 : raw ≤ 100
  · simp only [if_pos h1]
    have hx : raw * 127 / 100 ≤ 127 := by
      calc raw * 127 / 100 ≤ 100 * 127 / 100 :=
            Nat.div_le_div_right (Nat.mul_le_mul_right _ h1)
        _ = 127 := by norm_num
    rw [Nat.mod_eq_of_lt (Nat.lt_of_le_of_lt hx (by norm_num))]
    exact hx
  · by_cases h2 : raw ≤ 127
    · simp only [if_neg h1, if_pos h2]
      rw [Nat.mod_eq_of_lt (Nat.lt_of_le_of_lt h2 (by norm_num))]
      exact h2
    · simp only [if_neg h1, if_neg h2]
      have hx : min raw 255 * 127 / 255 ≤ 127 := by
        calc min raw 255 * 127 / 255 ≤ 255 * 127 / 255 :=
              Nat.div_le_div_right
                (Nat.mul_le_mul_right _ (Nat.min_le_right _ _))
          _ = 127 := by norm_num
      rw [Nat.mod_eq_of_lt (Nat.lt_of_le_of_lt hx (by norm_num))]
      exact hx

/-- C3: for every requested length `n > 0` over a queue of genuine bytes
(< 256), the pull callback returns a block of exactly `n` bytes, and any
shortfall between the queued data and `n` — the tail of the block past
the `min n queued` dequeued bytes — consists of zero-valued bytes
(digital silence), in every control state, including the scaled branch
`0 < volume < 100`. -/
theorem C3_pull_exact_length (queue : List Nat) (uac_mute_flag : Bool)
    (uac_volume_level n : Nat) (h : 0 < n)
    (hbytes : ∀ b ∈ queue, b < 256) :
    ((get_bt_audio_data queue uac_mute_flag uac_volume_level n).1).length
      = n ∧
    ((get_bt_audio_data queue uac_mute_flag uac_volume_level n).1).drop
        (min n queue.length) =
      List.replicate (n - min n queue.length) 0 := by
  rw [get_bt_audio_data_eq]
  have hn : ¬ n = 0 := by omega
  by_cases hm : uac_mute_flag = true ∨ uac_volume_level = 0
  · rw [if_neg hn, if_pos hm]
    constructor
    · simp
    · show (List.replicate n 0).drop (min n queue.length) =
        List.replicate (n - min n queue.length) 0
      rw [List.drop_replicate]
  · by_cases hv : uac_volume_level < 100 ∧ 0 < uac_volume_level ∧ 0 < n
    · rw [if_neg hn, if_neg hm, if_pos hv]
      constructor
      · show (scale_bytes uac_volume_level
            (queue.take n ++ List.replicate (n - queue.length) 0)).length = n
        rw [scale_bytes_length]
        simp only [List.length_append, List.length_take,
          List.length_replicate]
        omega
      · show (scale_bytes uac_volume_level
            (queue.take n ++ List.replicate (n - queue.length) 0)).drop
            (min n queue.length) =
          List.replicate (n - min n queue.length) 0
        have hlen : min n queue.length = (queue.take n).length := by
          rw [List.length_take]
        rw [hlen]
        rw [scale_bytes_zero_tail uac_volume_level hv.1 (queue.take n)
          (fun b hb2 => hbytes b (List.take_subset n queue hb2))
          (n - queue.length)]
        congr 1
        rw [List.length_take]
        omega
    · rw [if_neg hn, if_neg hm, if_neg hv]
      constructor
      · show (queue.take n ++ List.replicate (n - queue.length) 0).length = n
        simp only [List.length_append, List.length_take,
          List.length_replicate]
        omega
      · show (queue.take n ++ List.replicate (n - queue.length) 0).drop
            (min n queue.length) =
          List.replicate (n - min n queue.length) 0
        have hlen : min n queue.length = (queue.take n).length := by
          rw [List.length_take]
        rw [hlen, List.drop_left]
        congr 1
        rw [List.length_take]
        omega

/-- Witness for C3: a pull of 8 bytes from the 3-byte queue `[1, 2, 3]`
at volume 50 (the scaled branch, with a slot straddling data and
padding) returns exactly 8 bytes whose last 5 are zero. -/
theorem C3_pull_exact_length_witness :
    ((get_bt_audio_data [1, 2, 3] false 50 8).1).length = 8 ∧
    ((get_bt_audio_data [1, 2, 3] false 50 8).1).drop
        (min 8 [1, 2, 3].length) =
      List.replicate (8 - min 8 [1, 2, 3].length) 0 :=
  C3_pull_exact_length [1, 2, 3] false 50 8 (by decide) (by decide)

/-- C4 counterexample: with 4 bytes queued and an incoming 8190-byte
write (queue 4 + 8190 > 8192, so the enqueue fails), the overflow path
discards only the 4 queued bytes — fewer than the length of the incoming
write — and the retry then succeeds, refuting "discards oldest queued
data sized to at least the length of the incoming write". -/
theorem C4_counterexample :
    ((uac_output_cb (List.replicate 4 1) (List.replicate 8190 2)).dropped)
        = List.replicate 4 1 ∧
    (List.replicate 4 1).length < (List.replicate 8190 2).length ∧
    (uac_output_cb (List.replicate 4 1) (List.replicate 8190 2)).queue =
      List.replicate 8190 2 := by
  have h1 : xRingbufferSend (List.replicate 4 1) (List.replicate 8190 2)
      = none := by
    unfold xRingbufferSend
    rw [if_neg]
    rw [List.length_replicate, List.length_replicate]
    norm_num [RINGBUF_SIZE]
  have hd : (xRingbufferReceiveUpTo (List.replicate 4 1)
      (List.replicate 8190 2).length).2 = [] := by
    unfold xRingbufferReceiveUpTo
    apply List.drop_eq_nil_of_le
    rw [List.length_replicate, List.length_replicate]
    norm_num
  have ht : (xRingbufferReceiveUpTo (List.replicate 4 1)
      (List.replicate 8190 2).length).1 = List.replicate 4 1 := by
    unfold xRingbufferReceiveUpTo
    apply List.take_of_length_le
    rw [List.length_replicate, List.length_replicate]
    norm_num
  have h2 : xRingbufferSend
      (xRingbufferReceiveUpTo (List.replicate 4 1)
        (List.replicate 8190 2).length).2
      (List.replicate 8190 2) = some (List.replicate 8190 2) := by
    rw [hd]
    unfold xRingbufferSend
    rw [if_pos]
    · rw [List.nil_append]
    · rw [List.length_nil, List.length_replicate]
      norm_num [RINGBUF_SIZE]
  have hpos : 0 < (List.replicate 8190 2).length := by
    rw [List.length_replicate]
    norm_num
  have hres : uac_output_cb (List.replicate 4 1) (List.replicate 8190 2) =
      ⟨List.replicate 8190 2, List.replicate 4 1, ESP_OK⟩ := by
    unfold uac_output_cb
    rw [if_pos hpos]
    simp only [h1, h2, ht]
  rw [hres]
  refine ⟨rfl, ?_, rfl⟩
  rw [List.length_replicate, List.length_replicate]
  norm_num

/-- C4 (amended): the delivery callback always reports success; when the
incoming write does not fit, the producer path dequeues and discards the
oldest queued data sized to at most the length of the incoming write
(exactly `min len queued` bytes — fewer than `len` when less is queued),
then retries the enqueue exactly once, and if the retry also fails the
write is silently dropped. -/
theorem C4_overflow_drop_at_most (queue buf : List Nat)
    (hb : 0 < buf.length)
    (hover : RINGBUF_SIZE < queue.length + buf.length) :
    (∀ q b : List Nat, (uac_output_cb q b).err = ESP_OK) ∧
    (uac_output_cb queue buf).dropped = queue.take buf.length ∧
    ((uac_output_cb queue buf).dropped).length ≤ buf.length ∧
    (uac_output_cb queue buf).queue =
      (if (queue.drop buf.length).length + buf.length ≤ RINGBUF_SIZE
       then queue.drop buf.length ++ buf
       else queue.drop buf.length) := by
  have herr : ∀ q b : List Nat, (uac_output_cb q b).err = ESP_OK := by
    intro q b
    unfold uac_output_cb
    by_cases hb2 : 0 < b.length
    · simp only [if_pos hb2]
      cases hx : xRingbufferSend q b with
      | some q2 => simp
      | none =>
        cases hx2 : xRingbufferSend
            (xRingbufferReceiveUpTo q b.length).2 b with
        | some q3 => simp
        | none => simp
    · simp [if_neg hb2]
  have hfail : xRingbufferSend queue buf = none := by
    unfold xRingbufferSend
    rw [if_neg]
    omega
  refine ⟨herr, ?_⟩
  by_cases hfit : (queue.drop buf.length).length + buf.length ≤ RINGBUF_SIZE
  · have hx2 : xRingbufferSend (queue.drop buf.length) buf =
        some (queue.drop buf.length ++ buf) := by
      unfold xRingbufferSend
      rw [if_pos hfit]
    have hres : uac_output_cb queue buf =
        ⟨queue.drop buf.length ++ buf, queue.take buf.length, ESP_OK⟩ := by
      unfold uac_output_cb
      rw [if_pos hb]
      simp only [hfail, xRingbufferReceiveUpTo, hx2]
    rw [hres, if_pos hfit]
    refine ⟨rfl, ?_, rfl⟩
    rw [List.length_take]
    omega
  · have hx2 : xRingbufferSend (queue.drop buf.length) buf = none := by
      unfold xRingbufferSend
      rw [if_neg hfit]
    have hres : uac_output_cb queue buf =
        ⟨queue.drop buf.length, queue.take buf.length, ESP_OK⟩ := by
      unfold uac_output_cb
      rw [if_pos hb]
      simp only [hfail, xRingbufferReceiveUpTo, hx2]
    rw [hres, if_neg hfit]
    refine ⟨rfl, ?_, rfl⟩
    rw [List.length_take]
    omega

/-- Witness for C4 (amended) at a concrete overflow: queue `[1, 2, 3]`,
incoming write of 8190 bytes. -/
theorem C4_overflow_drop_at_most_witness :
    (∀ q b : List Nat, (uac_output_cb q b).err = ESP_OK) ∧
    (uac_output_cb [1, 2, 3] (List.replicate 8190 7)).dropped =
      [1, 2, 3].take (List.replicate 8190 7).length ∧
    ((uac_output_cb [1, 2, 3] (List.replicate 8190 7)).dropped).length ≤
      (List.replicate 8190 7).length ∧
    (uac_output_cb [1, 2, 3] (List.replicate 8190 7)).queue =
      (if ([1, 2, 3].drop (List.replicate 8190 7).length).length +
            (List.replicate 8190 7).length ≤ RINGBUF_SIZE
       then [1, 2, 3].drop (List.replicate 8190 7).length ++
              List.replicate 8190 7
       else [1, 2, 3].drop (List.replicate 8190 7).length) :=
  C4_overflow_drop_at_most [1, 2, 3] (List.replicate 8190 7)
    (by rw [List.length_replicate]; norm_num)
    (by rw [List.length_replicate]; norm_num [RINGBUF_SIZE])

/-- C5: whenever the state is muted or the stored volume level is 0, a
pull of `n > 0` bytes returns `n` zero bytes, whatever is queued. -/
theorem C5_mute_silence (queue : List Nat) (uac_mute_flag : Bool)
    (uac_volume_level n : Nat) (h : 0 < n)
    (hmv : uac_mute_flag = true ∨ uac_volume_level = 0) :
    (get_bt_audio_data queue uac_mute_flag uac_volume_level n).1 =
      List.replicate n 0 := by
  rw [get_bt_audio_data_eq]
  have hn : ¬ n = 0 := by omega
  rw [if_neg hn, if_pos hmv]

/-- Witness for C5: muted pull of 4 bytes over a non-empty queue. -/
theorem C5_mute_silence_witness :
    (get_bt_audio_data [7, 8] true 50 4).1 = List.replicate 4 0 :=
  C5_mute_silence [7, 8] true 50 4 (by decide) (Or.inl rfl)

/-- C6: along any sequence of deliveries and pulls (from the initial
state: unmuted, volume 100) whose deliveries always fit into the free
capacity, nothing is dropped and the bytes handed to the consumer,
followed by the bytes still queued, are exactly the delivered bytes —
byte-for-byte, in order, with no reordering or duplication. -/
theorem C6_fifo_round_trip (ops : List Op)
    (hdata : ∀ op ∈ ops, isDataOp op = true)
    (hno : NoOverflow SysState.init ops = true) :
    (runOps SysState.init ops).pulled ++ (runOps SysState.init ops).queue =
      enqueuedBytes ops ∧
    (runOps SysState.init ops).dropped = [] := by
  obtain ⟨newly, hp, hr, hd, ha⟩ :=
    runOps_fifo ops SysState.init hdata hno rfl rfl
  have hinv := runOps_inv ops SysState.init
    (by simp [SysState.init, RINGBUF_SIZE]) (by simp [SysState.init])
  have hp2 : (runOps SysState.init ops).pulled = newly := by
    simpa [SysState.init] using hp
  have hr2 : (runOps SysState.init ops).removed = newly := by
    simpa [SysState.init] using hr
  have ha2 : (runOps SysState.init ops).accepted = enqueuedBytes ops := by
    simpa [SysState.init] using ha
  refine ⟨?_, by simpa [SysState.init] using hd⟩
  rw [hp2, ← hr2, hinv.2, ha2]

/-- Witness for C6: deliver `[1,2,3,4]`, pull 2 bytes, deliver `[5,6]`;
the pulled bytes `[1,2]` followed by the queued `[3,4,5,6]` equal the
delivered stream, and nothing was dropped. -/
theorem C6_fifo_round_trip_witness :
    (runOps SysState.init
        [Op.deliver [1, 2, 3, 4], Op.pull 2, Op.deliver [5, 6]]).pulled ++
      (runOps SysState.init
        [Op.deliver [1, 2, 3, 4], Op.pull 2, Op.deliver [5, 6]]).queue =
      enqueuedBytes [Op.deliver [1, 2, 3, 4], Op.pull 2,
        Op.deliver [5, 6]] ∧
    (runOps SysState.init
        [Op.deliver [1, 2, 3, 4], Op.pull 2, Op.deliver [5, 6]]).dropped
      = [] :=
  C6_fifo_round_trip [Op.deliver [1, 2, 3, 4], Op.pull 2,
    Op.deliver [5, 6]] (by decide) (by decide)

/-- C7: a key event with `released = false` never changes the mute flag;
releasing PLAY (0x44) or PAUSE (0x46) flips it; releasing any other key
(next/previous/seek or an unknown code such as 0xFF) leaves it
unchanged, with no failure. -/
theorem C7_remote_key (key : Nat) (uac_mute_flag : Bool) :
    avrc_passthru_cb key false uac_mute_flag = uac_mute_flag ∧
    avrc_passthru_cb 0x44 true uac_mute_flag = !uac_mute_flag ∧
    avrc_passthru_cb 0x46 true uac_mute_flag = !uac_mute_flag ∧
    (key ≠ 0x44 → key ≠ 0x46 →
      avrc_passthru_cb key true uac_mute_flag = uac_mute_flag) := by
  refine ⟨rfl, by simp [avrc_passthru_cb], by simp [avrc_passthru_cb], ?_⟩
  intro h44 h46
  simp [avrc_passthru_cb, h44, h46]

/-- Witness for C7: releasing the unknown key 0xFF leaves the mute flag
unchanged. -/
theorem C7_remote_key_witness :
    avrc_passthru_cb 0xFF true false = false :=
  (C7_remote_key 0xFF false).2.2.2 (by decide) (by decide)

/-- C8: from the initial state, under any sequence of deliveries
(including the overflow drop-oldest-and-retry path), pulls, and control
events, the queue never holds more than `RINGBUF_SIZE = 8192` bytes, and
the bytes removed from the queue so far (pulled or discarded, in
chronological order) followed by the current queue are exactly the
successfully enqueued bytes in order — so whatever is dropped is always
the oldest data at the moment of the drop. -/
theorem C8_capacity_oldest_first (ops : List Op) :
    (runOps SysState.init ops).queue.length ≤ RINGBUF_SIZE ∧
    RINGBUF_SIZE = 8192 ∧
    (runOps SysState.init ops).removed ++ (runOps SysState.init ops).queue =
      (runOps SysState.init ops).accepted := by
  have h := runOps_inv ops SysState.init
    (by simp [SysState.init, RINGBUF_SIZE]) (by simp [SysState.init])
  exact ⟨h.1, by norm_num [RINGBUF_SIZE], h.2⟩

/-- C9: unmuted at volume level exactly 100, a pull of `n > 0` bytes
returns the dequeued bytes unmodified (padded with silence on
underrun) — the volume transform is the identity. -/
theorem C9_unity_passthrough (queue : List Nat) (n : Nat) (h : 0 < n) :
    get_bt_audio_data queue false 100 n =
      (queue.take n ++ List.replicate (n - queue.length) 0,
       queue.drop n) := by
  rw [get_bt_audio_data_eq]
  have hn : ¬ n = 0 := by omega
  simp [hn]

/-- Witness for C9: at volume 100 the queued bytes `[1, 2]` come back
unchanged, padded to the requested 4 bytes. -/
theorem C9_unity_passthrough_witness :
    get_bt_audio_data [1, 2] false 100 4 =
      ([1, 2].take 4 ++ List.replicate (4 - [1, 2].length) 0,
       [1, 2].drop 4) :=
  C9_unity_passthrough [1, 2] 4 (by decide)

/-- C10 (implicit behavior): a raw host volume above 100 is stored
unrescaled by `set_volume`, and a pull at such a stored level applies no
scaling at all — the dequeued bytes come back unmodified, as at unity
gain. -/
theorem C10_over100_passthrough (raw : Nat) (queue : List Nat) (n : Nat)
    (hraw : 100 < raw) (h : 0 < n) :
    (uac_device_set_volume_cb raw).1 = raw ∧
    get_bt_audio_data queue false raw n =
      (queue.take n ++ List.replicate (n - queue.length) 0,
       queue.drop n) := by
  refine ⟨rfl, ?_⟩
  rw [get_bt_audio_data_eq]
  have hn : ¬ n = 0 := by omega
  have h0 : ¬ raw = 0 := by omega
  have hv : ¬ (raw < 100 ∧ 0 < raw ∧ 0 < n) := by omega
  simp [hn, h0, hv]

/-- Witness for C10: `set_volume(110)` stores 110 and a 2-byte pull at
level 110 passes the queued byte through unscaled. -/
theorem C10_over100_passthrough_witness :
    (uac_device_set_volume_cb 110).1 = 110 ∧
    get_bt_audio_data [9] false 110 2 =
      ([9].take 2 ++ List.replicate (2 - [9].length) 0, [9].drop 2) :=
  C10_over100_passthrough 110 [9] 2 (by decide) (by decide)
